import Mathlib

/-!
Verification development for the dotfiles installer (src/dotfiles.py).

The Python source is shallowly embedded:
* the configuration trees handled by `Config` become the mutual
  inductives `PyValue` / `PyList` / `PyDict` (JSON-like values;
  insertion-ordered dictionaries become ordered entry sequences,
  scalar leaves become strings);
* `Config._merge_config` and `Config.get` become pure recursive
  functions over those types;
* the filesystem touched by `FileManager.backup` and
  `FileManager.symlink` becomes a partial map from paths to nodes;
* the process world touched by `run_command`, `clone_dotfiles` and
  `safe_git_pull` becomes a small state monad whose results
  distinguish normal return, `sys.exit`, and a raised exception, with
  the git commands the installer actually issues interpreted over an
  explicit repository state;
* the aliasing behaviour of `Config.__init__` (`DEFAULT_CONFIG.copy()`
  is a shallow copy) becomes an explicit heap of dictionary objects.
-/

namespace Dotfiles

/-! ## Configuration values (src/dotfiles.py, class Config)

Python dictionaries are insertion ordered with unique keys; they are
modelled as the ordered entry sequence `PyDict`.  Scalar leaves
(strings, and the `Path` values appearing in `DEFAULT_CONFIG`) are
modelled as strings; `None` (JSON null) has its own constructor
because `Config.get` treats a stored `None` like a missing key. -/

mutual
inductive PyValue where
  | none : PyValue
  | str : String → PyValue
  | pathv : String → PyValue
  | list : PyList → PyValue
  | dict : PyDict → PyValue
deriving DecidableEq
inductive PyList where
  | nil : PyList
  | cons : PyValue → PyList → PyList
deriving DecidableEq
inductive PyDict where
  | nil : PyDict
  | cons : String → PyValue → PyDict → PyDict
deriving DecidableEq
end

/-- Build a `PyList` from a Lean list (notation helper only). -/
def PyList.ofList : List PyValue → PyList
  | [] => .nil
  | v :: rest => .cons v (PyList.ofList rest)

/-- Build a `PyDict` from a Lean list of entries (notation helper only). -/
def PyDict.ofList : List (String × PyValue) → PyDict
  | [] => .nil
  | (k, v) :: rest => .cons k v (PyDict.ofList rest)

/-- `d.get(k)` on a Python dict: the first (unique) matching key,
`None` when absent. -/
def PyDict.get : PyDict → String → Option PyValue
  | .nil, _ => Option.none
  | .cons k' v rest, k => if k' = k then Option.some v else rest.get k

/-- `d[k] = v` on a Python dict: replace the value of an existing key
in place, otherwise append the new key at the end. -/
def PyDict.set : PyDict → String → PyValue → PyDict
  | .nil, k, v => .cons k v .nil
  | .cons k' v' rest, k, v =>
      if k' = k then .cons k v rest else .cons k' v' (rest.set k v)

/-- The keys of a dict, in order. -/
def PyDict.keys : PyDict → List String
  | .nil => []
  | .cons k _ rest => k :: rest.keys

/-- `Config._merge_config(base, update)` (src/dotfiles.py:211-217),
as the value computed for `base` by the in-place loop:

    for key, value in update.items():
        if key in base and isinstance(base[key], dict) and isinstance(value, dict):
            self._merge_config(base[key], value)
        else:
            base[key] = value
-/
def mergeDict (base : PyDict) : PyDict → PyDict
  | .nil => base
  | .cons k v rest =>
      let base' :=
        match base.get k, v with
        | Option.some (.dict bd), .dict ud => base.set k (.dict (mergeDict bd ud))
        | _, _ => base.set k v
      mergeDict base' rest

/-- Python `key.split('.')`: split on every dot, keeping empty parts
(`''.split('.') == ['']`).  Defined by structural recursion on the
character data so that concrete keys evaluate inside proofs. -/
def splitDotAux : List Char → List Char → List String
  | [], acc => [String.mk acc.reverse]
  | c :: cs, acc =>
      if c = '.' then String.mk acc.reverse :: splitDotAux cs []
      else splitDotAux cs (c :: acc)

/-- `key.split('.')` as used by `Config.get`. -/
def splitDot (key : String) : List String := splitDotAux key.data []

/-- The loop of `Config.get` (src/dotfiles.py:219-232):

    value = self.config
    for k in keys:
        if isinstance(value, dict):
            value = value.get(k)
            if value is None:
                return default
        else:
            return default
    return value
-/
def Config.getAux (default : PyValue) : List String → PyValue → PyValue
  | [], value => value
  | k :: ks, value =>
      match value with
      | .dict d =>
          match d.get k with
          | Option.none => default
          | Option.some .none => default
          | Option.some v => Config.getAux default ks v
      | _ => default

/-- `Config.get(key, default)` (src/dotfiles.py:219-232): dot-notation
lookup in the merged configuration. -/
def Config.get (config : PyValue) (key : String) (default : PyValue) : PyValue :=
  Config.getAux default (splitDot key) config

/-- Spec-side walk (from the spec wording for `get`): follow the
segments through nested mappings; `Option.some` exactly when the
dotted key is present in the tree. -/
def walkPath : List String → PyValue → Option PyValue
  | [], v => Option.some v
  | k :: ks, .dict d =>
      match d.get k with
      | Option.some v => walkPath ks v
      | Option.none => Option.none
  | _ :: _, _ => Option.none

/-- The walk meets a mapping that simply lacks the next segment
(as opposed to being shadowed by a non-mapping value). -/
def cleanMiss : List String → PyValue → Bool
  | k :: ks, .dict d =>
      match d.get k with
      | Option.some v => cleanMiss ks v
      | Option.none => true
  | _, _ => false

/-- The walk fails: some intermediate segment is missing from a
mapping, or the value reached with segments remaining is not a
mapping (the fallback conditions named by the spec for `get`). -/
def walkFails : List String → PyValue → Bool
  | [], _ => false
  | k :: ks, .dict d =>
      match d.get k with
      | Option.some v => walkFails ks v
      | Option.none => true
  | _ :: _, _ => true

mutual
/-- Every dictionary in the tree has distinct keys — true of every
value Python can build (dict literals and `json.load` results). -/
def wfVal : PyValue → Bool
  | .dict d => decide d.keys.Nodup && wfDict d
  | _ => true
/-- Entry-wise well-formedness of a dictionary. -/
def wfDict : PyDict → Bool
  | .nil => true
  | .cons _ v rest => wfVal v && wfDict rest
end

/-- A scalar configuration value (string or path leaf). -/
def isScalar : PyValue → Bool
  | .str _ => true
  | .pathv _ => true
  | _ => false

/-- The claim's per-key description of the merge: absent from the
override keeps the default, nested mappings on both sides merge
recursively, anything else is replaced wholesale by the override. -/
def mergeAt : Option PyValue → Option PyValue → Option PyValue
  | b, Option.none => b
  | Option.some (.dict bd), Option.some (.dict ud) => Option.some (.dict (mergeDict bd ud))
  | _, Option.some v => Option.some v

/-- `Config.DEFAULT_CONFIG` (src/dotfiles.py:186-200).  `Path` leaves
are modelled as `pathv` with the tilde-abbreviated text. -/
def DEFAULT_CONFIG : PyDict := .ofList [
  ("dotfiles_root", .pathv "~/Work/.dotfiles"),
  ("backup_dir", .pathv "~/.dotfiles-backup"),
  ("shell", .dict (.ofList [("default", .str "zsh"), ("theme", .str "powerlevel10k")])),
  ("tools", .list (.ofList [.str "ripgrep", .str "fd", .str "bat", .str "eza", .str "fzf",
                            .str "tmux", .str "neovim", .str "htop", .str "jq", .str "tldr"])),
  ("fonts", .list (.ofList [.str "FiraCode", .str "JetBrainsMono", .str "Iosevka"]))
]

/-! ## Filesystem model (src/dotfiles.py, class FileManager)

The filesystem is a partial map from absolute paths (component lists)
to nodes.  Symlink resolution is bounded by the usual kernel limit of
40 links; a looping or dangling chain does not *exist*, exactly as
`Path.exists()` reports.  `shutil.copytree` is modelled as copying the
subtree verbatim. -/

abbrev FPath := List String

inductive FNode where
  | file : String → FNode
  | dir : FNode
  | link : FPath → FNode
deriving DecidableEq

abbrev FS := FPath → Option FNode

/-- Symlink-chasing limit (Linux resolves at most 40 links). -/
def FUEL : Nat := 40

/-- Resolve to the final existing node, following links; `Option.none`
when the path (or a link target on the way) is missing or loops. -/
def resolveFS : Nat → FS → FPath → Option FPath
  | 0, _, _ => Option.none
  | n + 1, fs, p =>
      match fs p with
      | Option.some (.link q) => resolveFS n fs q
      | Option.some _ => Option.some p
      | Option.none => Option.none

/-- `Path.resolve()` (non-strict): follow links while possible, keep
the last path otherwise. -/
def resolveSoft : Nat → FS → FPath → FPath
  | 0, _, p => p
  | n + 1, fs, p =>
      match fs p with
      | Option.some (.link q) => resolveSoft n fs q
      | _ => p

/-- `Path.exists()`: follows symlinks. -/
def pathExists (fs : FS) (p : FPath) : Bool := (resolveFS FUEL fs p).isSome

/-- `Path.is_symlink()`: true also for dangling links. -/
def isSymlinkF (fs : FS) (p : FPath) : Bool :=
  match fs p with
  | Option.some (.link _) => true
  | _ => false

/-- `Path.is_dir()`: follows symlinks. -/
def isDirF (fs : FS) (p : FPath) : Bool :=
  match resolveFS FUEL fs p with
  | Option.some q =>
      match fs q with
      | Option.some .dir => true
      | _ => false
  | Option.none => false

/-- The backup file name `f"{path.name}.backup.{timestamp}"`
(src/dotfiles.py:317-318). -/
def backupName (name ts : String) : String := name ++ ".backup." ++ ts

/-- `path.parent / f"{path.name}.backup.{timestamp}"`. -/
def backupPath (p : FPath) (ts : String) : FPath :=
  p.dropLast ++ [backupName (p.getLastD "") ts]

/-- `FileManager.backup(path)` (src/dotfiles.py:311-326); `ts` stands
for `datetime.now().strftime('%Y%m%d_%H%M%S')` at call time.  Returns
the new filesystem and the returned path. -/
def FileManager.backup (ts : String) (fs : FS) (p : FPath) : FS × FPath :=
  if pathExists fs p then
    let bp := backupPath p ts
    let rp := (resolveFS FUEL fs p).getD p
    if isDirF fs p then
      (fun q => if bp.isPrefixOf q then fs (rp ++ q.drop bp.length) else fs q, bp)
    else
      (fun q => if q = bp then fs rp else fs q, bp)
  else
    (fs, p)

/-- `target.parent.mkdir(parents=True, exist_ok=True)`: create the
directory and its ancestors where absent. -/
def mkdirParents (fs : FS) (d : FPath) : FS :=
  fun q => if q ≠ [] ∧ q.isPrefixOf d ∧ fs q = Option.none then Option.some .dir else fs q

inductive LinkResult where
  | ok : LinkResult
  | exited : Nat → LinkResult
  | isADirectoryError : LinkResult
deriving DecidableEq

/-- `FileManager.symlink(source, target, backup)`
(src/dotfiles.py:328-344).  When the resolved source does not exist,
`self.logger.error(...)` runs with its default `exit=True` and the
process dies with status 1 (the `return` after it is unreachable).
`target.unlink()` removes a regular file or a symlink, but raises
`IsADirectoryError` when the target is a real directory; the source
has no handler for it, so the exception escapes `symlink` (after the
backup has already been taken) and the target is never replaced. -/
def FileManager.symlink (ts : String) (fs : FS) (source target : FPath) (backup : Bool) :
    FS × LinkResult :=
  let src := resolveSoft FUEL fs source
  if pathExists fs src then
    if pathExists fs target || isSymlinkF fs target then
      let fsb := if backup then (FileManager.backup ts fs target).1 else fs
      match fsb target with
      | Option.some .dir => (fsb, .isADirectoryError)
      | _ =>
          let fs₁ := fun q => if q = target then Option.none else fsb q
          let fs₂ := mkdirParents fs₁ target.dropLast
          (fun q => if q = target then Option.some (.link src) else fs₂ q, .ok)
    else
      let fs₂ := mkdirParents fs target.dropLast
      (fun q => if q = target then Option.some (.link src) else fs₂ q, .ok)
  else
    (fs, .exited 1)

/-! ## Process model (src/dotfiles.py: Logger, run_command,
DotfilesInstaller.clone_dotfiles, safe_git_pull)

A `Py α` computation threads a `PyState` (the state of the tracked
dotfiles repository plus the observable command trace and log) and
ends in a normal value, a `sys.exit` (`SystemExit` is a
`BaseException`, caught by no `except` clause in the source), or a
raised exception. -/

inductive LogLevel where
  | info : LogLevel
  | success : LogLevel
  | warning : LogLevel
  | error : LogLevel
deriving DecidableEq

structure LogMsg where
  level : LogLevel
  text : String
deriving DecidableEq

inductive PyExc where
  | calledProcessError : Nat → List String → PyExc
  | fileNotFoundError : List String → PyExc
deriving DecidableEq

inductive PyResult (α : Type) where
  | ok : α → PyResult α
  | exit : Nat → PyResult α
  | raised : PyExc → PyResult α
deriving DecidableEq

/-- State of the tracked dotfiles repository and its remote. -/
structure RepoState where
  present : Bool
  isGit : Bool
  localHead : Nat
  remoteHead : Nat
  dirty : Bool
  stash : List String
deriving DecidableEq

structure PyState where
  repo : RepoState
  remoteOk : Bool
  popClean : Bool
  trace : List (List String)
  log : List LogMsg
deriving DecidableEq

def Py (α : Type) : Type := PyState → PyState × PyResult α

instance : Monad Py where
  pure a := fun s => (s, .ok a)
  bind m f := fun s =>
    match m s with
    | (s', .ok a) => f a s'
    | (s', .exit c) => (s', .exit c)
    | (s', .raised e) => (s', .raised e)

def getPy : Py PyState := fun s => (s, .ok s)

def pyRaiseE {α : Type} (e : PyExc) : Py α := fun s => (s, .raised e)

def addLog (lv : LogLevel) (m : String) : Py Unit :=
  fun s => ({ s with log := s.log ++ [⟨lv, m⟩] }, .ok ())

/-- `Logger.info` (src/dotfiles.py:154-156). -/
def Logger.info (m : String) : Py Unit := addLog .info m

/-- `Logger.success` (src/dotfiles.py:158-160). -/
def Logger.success (m : String) : Py Unit := addLog .success m

/-- `Logger.warning` (src/dotfiles.py:162-164). -/
def Logger.warning (m : String) : Py Unit := addLog .warning m

/-- `Logger.error(message, exit=True)` (src/dotfiles.py:166-170):
logs, then calls `sys.exit(1)` unless the caller passed `exit=False`.
The Python default for the flag is `True`. -/
def Logger.error (m : String) (exitFlag : Bool) : Py Unit :=
  fun s =>
    let s' := { s with log := s.log ++ [⟨.error, m⟩] }
    if exitFlag then (s', .exit 1) else (s', .ok ())

/-- `subprocess.CompletedProcess` (the fields run_command uses). -/
structure CompletedProcess where
  args : List String
  returncode : Nat
  stdout : String
  stderr : String
deriving DecidableEq

inductive SpawnResult where
  | finished : Nat → String → String → SpawnResult
  | notFound : SpawnResult
deriving DecidableEq

def autoStashMsg : String := "Auto-stash before pull"

def dotfilesRoot : String := "~/Work/.dotfiles"

def repoUrl : String := "https://github.com/alamin-mahamud/.dotfiles.git"

/-- Join strings with a separator (Python `sep.join`). -/
def joinWith (sep : String) : List String → String
  | [] => ""
  | [x] => x
  | x :: rest => x ++ sep ++ joinWith sep rest

/-- Python `str.strip()`. -/
def pyStrip (s : String) : String :=
  String.mk (((s.data.dropWhile Char.isWhitespace).reverse.dropWhile Char.isWhitespace).reverse)

/-- Occurrence of `n` as a sublist of the second argument. -/
def subListC (n : List Char) : List Char → Bool
  | [] => List.isPrefixOf n []
  | c :: cs => List.isPrefixOf n (c :: cs) || subListC n cs

/-- Python substring test `needle in haystack`. -/
def pyIn (needle haystack : String) : Bool := subListC needle.data haystack.data

/-- Semantics of the git commands the installer issues, over the
repository state: this is the external world `subprocess.run` talks
to.  Anything else is an unknown executable. -/
def spawn (s : PyState) (argv : List String) : PyState × SpawnResult :=
  match argv with
  | ["git", "rev-parse", "--git-dir"] =>
      if s.repo.present && s.repo.isGit then (s, .finished 0 ".git" "")
      else (s, .finished 128 "" "fatal: not a git repository")
  | ["git", "status", "--porcelain"] =>
      if s.repo.present && s.repo.isGit then
        (s, .finished 0 (if s.repo.dirty then " M file" else "") "")
      else (s, .finished 128 "" "fatal: not a git repository")
  | ["git", "stash", "push", "-m", m] =>
      if s.repo.dirty then
        ({ s with repo := { s.repo with dirty := false, stash := m :: s.repo.stash } },
         .finished 0 "Saved working directory and index state" "")
      else (s, .finished 0 "No local changes to save" "")
  | ["git", "pull", "--rebase"] =>
      if s.remoteOk then
        ({ s with repo := { s.repo with localHead := s.repo.remoteHead } },
         .finished 0 "Updated" "")
      else (s, .finished 1 "" "fatal: unable to access remote")
  | ["git", "pull"] =>
      if s.remoteOk then
        ({ s with repo := { s.repo with localHead := s.repo.remoteHead } },
         .finished 0 "Updated" "")
      else (s, .finished 1 "" "fatal: unable to access remote")
  | ["git", "stash", "list"] =>
      (s, .finished 0 (joinWith "\n" s.repo.stash) "")
  | ["git", "stash", "pop"] =>
      match s.repo.stash with
      | [] => (s, .finished 1 "" "No stash entries found.")
      | _ :: rest =>
          if s.popClean then
            ({ s with repo := { s.repo with dirty := true, stash := rest } },
             .finished 0 "Dropped" "")
          else
            ({ s with repo := { s.repo with dirty := true } },
             .finished 1 "" "conflict: could not apply stash")
  | ["git", "clone", _, _] =>
      if s.remoteOk then
        ({ s with repo := { s.repo with present := true, isGit := true, dirty := false,
                                        localHead := s.repo.remoteHead } },
         .finished 0 "" "Cloning...")
      else (s, .finished 128 "" "fatal: unable to access remote")
  | _ => (s, .notFound)

/-- One `subprocess.run` call: consult the world and record the argv
in the trace (each invocation runs the command exactly once). -/
def spawnStep (argv : List String) : Py SpawnResult :=
  fun s =>
    let (s₁, r) := spawn s argv
    ({ s₁ with trace := s₁.trace ++ [argv] }, .ok r)

/-- The diagnostic built by `run_command` on `CalledProcessError`
(src/dotfiles.py:859-866): argv, working directory, return code, and
the captured stdout/stderr. -/
def commandFailedMsg (argv : List String) (cwd : Option String) (rc : Nat)
    (out err : String) : String :=
  let m := "Command failed: " ++ joinWith " " argv
  let m := match cwd with
           | Option.some c => m ++ "\nWorking directory: " ++ c
           | Option.none => m
  let m := m ++ "\nReturn code: " ++ toString rc
  let m := if out ≠ "" then m ++ "\nStdout: " ++ out else m
  let m := if err ≠ "" then m ++ "\nStderr: " ++ err else m
  m

/-- The diagnostic for `FileNotFoundError` (src/dotfiles.py:870). -/
def notFoundMsg (argv : List String) : String :=
  "Command not found: " ++ argv.headD "" ++ "\nFull command: " ++ joinWith " " argv

/-- Python `str(e)` for the two exceptions. -/
def excText : PyExc → String
  | .calledProcessError rc cmd =>
      "Command " ++ joinWith " " cmd ++ " returned non-zero exit status " ++ toString rc ++ "."
  | .fileNotFoundError cmd => "No such file or directory: " ++ joinWith " " cmd

/-- `run_command(cmd, check, capture_output=True, text=True, cwd)`
(src/dotfiles.py:851-874).  On `CalledProcessError` or
`FileNotFoundError` the source calls `Logger().error(...)` with the
default `exit=True`, so the subsequent `raise` statements are
unreachable: the process exits instead of propagating the
exception. -/
def run_command (cmd : List String) (check : Bool) (cwd : Option String) :
    Py CompletedProcess := do
  let r ← spawnStep cmd
  match r with
  | .notFound => do
      Logger.error (notFoundMsg cmd) true
      pyRaiseE (.fileNotFoundError cmd)
  | .finished rc out err =>
      if check ∧ rc ≠ 0 then do
        Logger.error (commandFailedMsg cmd cwd rc out err) true
        pyRaiseE (.calledProcessError rc cmd)
      else
        pure ⟨cmd, rc, out, err⟩

/-- `try: ... except subprocess.CalledProcessError: ...`
(`SystemExit` derives from `BaseException` and is never caught). -/
def tryExceptCPE {α : Type} (body : Py α) (handler : PyExc → Py α) : Py α :=
  fun s =>
    match body s with
    | (s', .raised (.calledProcessError rc cmd)) => handler (.calledProcessError rc cmd) s'
    | r => r

/-- `try: ... except Exception: ...` (still never catches `SystemExit`). -/
def tryExceptAll {α : Type} (body : Py α) (handler : PyExc → Py α) : Py α :=
  fun s =>
    match body s with
    | (s', .raised e) => handler e s'
    | r => r

/-- The spec contract vocabulary for `syncOrClone`; the embedding tags
each completed branch of `clone_dotfiles` with its outcome. -/
inductive SyncOutcome where
  | cloned : SyncOutcome
  | synced : SyncOutcome
  | divergedResolved : SyncOutcome
  | conflicted : SyncOutcome
  | failed : SyncOutcome
deriving DecidableEq

/-- `DotfilesInstaller.clone_dotfiles` (src/dotfiles.py:705-751), the
realization of the spec contract `syncOrClone(path, remoteURL)`. -/
def clone_dotfiles : Py SyncOutcome := do
  let s ← getPy
  let out ←
    if s.repo.present then do
      Logger.info "Checking dotfiles repository status"
      tryExceptCPE
        (do
          let _ ← run_command ["git", "rev-parse", "--git-dir"] true (Option.some dotfilesRoot)
          let statusResult ← run_command ["git", "status", "--porcelain"] true
              (Option.some dotfilesRoot)
          if pyStrip statusResult.stdout ≠ "" then do
            Logger.warning "Uncommitted changes detected in dotfiles repository"
            Logger.info "Stashing local changes..."
            let _ ← run_command ["git", "stash", "push", "-m", autoStashMsg] true
                (Option.some dotfilesRoot)
            Logger.info "Pulling latest changes"
            let _ ← run_command ["git", "pull", "--rebase"] true (Option.some dotfilesRoot)
            let stashList ← run_command ["git", "stash", "list"] true (Option.some dotfilesRoot)
            if pyIn autoStashMsg stashList.stdout then do
              Logger.info "Reapplying stashed changes"
              tryExceptCPE
                (do
                  let _ ← run_command ["git", "stash", "pop"] true (Option.some dotfilesRoot)
                  pure SyncOutcome.divergedResolved)
                (fun _ => do
                  Logger.warning "Conflicts detected when applying stash. Please resolve manually."
                  Logger.info "Run \x27git stash pop\x27 in the dotfiles directory to apply changes"
                  pure SyncOutcome.conflicted)
            else
              pure SyncOutcome.divergedResolved
          else do
            Logger.info "Updating dotfiles repository"
            let _ ← run_command ["git", "pull"] true (Option.some dotfilesRoot)
            pure SyncOutcome.synced)
        (fun e => do
          Logger.error ("Failed to update repository: " ++ excText e) true
          Logger.info "Continuing with existing dotfiles..."
          pure SyncOutcome.failed)
    else do
      Logger.info "Cloning dotfiles repository"
      tryExceptCPE
        (do
          let _ ← run_command ["git", "clone", repoUrl, dotfilesRoot] true Option.none
          pure SyncOutcome.cloned)
        (fun e => do
          Logger.error ("Failed to clone repository: " ++ excText e) true
          pyRaiseE e)
  Logger.success "Dotfiles repository ready"
  pure out

/-- `safe_git_pull(repo_path, repo_name)` (src/dotfiles.py:888-923).
The early `return False` statements inside the nested handlers are
encoded with an `Option Bool` early-return signal. -/
def safe_git_pull (repoPath : String) (repoName : String) : Py Bool :=
  tryExceptAll
    (do
      let _ ← run_command ["git", "rev-parse", "--git-dir"] true (Option.some repoPath)
      let status ← run_command ["git", "status", "--porcelain"] true (Option.some repoPath)
      if pyStrip status.stdout ≠ "" then do
        Logger.warning ("Uncommitted changes in " ++ repoName)
        let early ←
          tryExceptCPE
            (do
              let _ ← run_command ["git", "stash", "push", "-m",
                  "Auto-stash for " ++ repoName] true (Option.some repoPath)
              Logger.info ("Stashed local changes in " ++ repoName)
              let _ ← run_command ["git", "pull", "--rebase"] true (Option.some repoPath)
              tryExceptCPE
                (do
                  let _ ← run_command ["git", "stash", "pop"] true (Option.some repoPath)
                  Logger.info ("Reapplied stashed changes in " ++ repoName))
                (fun _ =>
                  Logger.warning ("Conflicts in " ++ repoName ++
                    ". Run \x27git stash pop\x27 manually to resolve."))
              pure (Option.none : Option Bool))
            (fun e => do
              Logger.error ("Failed to update " ++ repoName ++ ": " ++ excText e) true
              pure (Option.some false))
        match early with
        | Option.some b => pure b
        | Option.none => pure true
      else do
        let _ ← run_command ["git", "pull"] true (Option.some repoPath)
        pure true)
    (fun e => do
      (match e with
       | .calledProcessError rc cmd =>
           Logger.error ("Git operation failed for " ++ repoName ++ ": " ++
             excText (.calledProcessError rc cmd)) true
       | .fileNotFoundError cmd =>
           Logger.error ("Unexpected error updating " ++ repoName ++ ": " ++
             excText (.fileNotFoundError cmd)) true)
      pure false)

/-! ## Heap model of `Config.__init__` (src/dotfiles.py:202-209)

`self.config = self.DEFAULT_CONFIG.copy()` is a *shallow* copy: the
new top-level dict shares the nested dict objects with the class-level
constant.  To state what `_merge_config` mutates, dictionaries live in
an explicit heap of objects addressed by allocation order. -/

inductive HVal where
  | prim : String → HVal
  | plist : List String → HVal
  | ref : Nat → HVal
deriving DecidableEq

abbrev HObj := List (String × HVal)

abbrev Heap := List HObj

def hobjGet : HObj → String → Option HVal
  | [], _ => Option.none
  | (k', v) :: rest, k => if k' = k then Option.some v else hobjGet rest k

def hobjSet : HObj → String → HVal → HObj
  | [], k, v => [(k, v)]
  | (k', v') :: rest, k, v =>
      if k' = k then (k, v) :: rest else (k', v') :: hobjSet rest k v

def heapObj (h : Heap) (a : Nat) : HObj := h.getD a []

/- JSON values as parsed by `json.load` (fresh objects). -/
mutual
inductive JVal where
  | prim : String → JVal
  | plist : List String → JVal
  | dict : JDict → JVal
inductive JDict where
  | nil : JDict
  | cons : String → JVal → JDict → JDict
end

mutual
/-- Allocate a parsed JSON value into the heap (fresh objects, as
`json.load` builds them). -/
def allocJ (h : Heap) : JVal → Heap × HVal
  | .prim s => (h, .prim s)
  | .plist l => (h, .plist l)
  | .dict d =>
      let (h₁, entries) := allocEntries h d
      (h₁ ++ [entries], .ref h₁.length)
/-- Allocate the entries of a parsed JSON dictionary. -/
def allocEntries (h : Heap) : JDict → Heap × HObj
  | .nil => (h, [])
  | .cons k v rest =>
      let (h₁, hv) := allocJ h v
      let (h₂, hrest) := allocEntries h₁ rest
      (h₂, (k, hv) :: hrest)
end

/-- `Config._merge_config(base, update)` over the heap, with `base`
an object *address*: recursing on a `ref` mutates the referenced
object in place — including objects shared with `DEFAULT_CONFIG`. -/
def mergeInPlace (h : Heap) (a : Nat) : JDict → Heap
  | .nil => h
  | .cons k v rest =>
      let h' :=
        match hobjGet (heapObj h a) k, v with
        | Option.some (.ref b), .dict ud => mergeInPlace h b ud
        | _, _ =>
            let (h₁, hv) := allocJ h v
            h₁.set a (hobjSet (heapObj h₁ a) k hv)
      mergeInPlace h' a rest

/-- `Config.DEFAULT_CONFIG` as heap objects: address 0 is the
class-level dict, address 1 its nested `'shell'` dict. -/
def defaultHeap : Heap := [
  [("dotfiles_root", .prim "~/Work/.dotfiles"),
   ("backup_dir", .prim "~/.dotfiles-backup"),
   ("shell", .ref 1),
   ("tools", .plist ["ripgrep", "fd", "bat", "eza", "fzf",
                     "tmux", "neovim", "htop", "jq", "tldr"]),
   ("fonts", .plist ["FiraCode", "JetBrainsMono", "Iosevka"])],
  [("default", .prim "zsh"), ("theme", .prim "powerlevel10k")]
]

/-- `Config.__init__(config_file)` (src/dotfiles.py:202-209): shallow
copy of the defaults, then the in-place merge when an override file
was loaded.  Returns the heap and the address of `self.config`. -/
def configInit (h : Heap) (userConfig : Option JDict) : Heap × Nat :=
  let a := h.length
  let h₁ := h ++ [heapObj h 0]
  match userConfig with
  | Option.none => (h₁, a)
  | Option.some u => (mergeInPlace h₁ a u, a)

/-- `Config.get` over the heap (the walk of src/dotfiles.py:219-232
with dict values read through references). -/
def heapGetAux (h : Heap) : List String → HVal → Option HVal
  | [], v => Option.some v
  | k :: ks, .ref a =>
      match hobjGet (heapObj h a) k with
      | Option.some v => heapGetAux h ks v
      | Option.none => Option.none
  | _ :: _, _ => Option.none

/-- Dot-notation lookup from a config address; `Option.none` stands
for falling back to the caller-supplied default. -/
def heapConfigGet (h : Heap) (a : Nat) (key : String) : Option HVal :=
  heapGetAux h (splitDot key) (.ref a)


/-- A small concrete filesystem used to exercise the file-manager
contracts: a directory `home` holding a source file and a target
file. -/
def sampleFS : FS := fun q =>
  if q = ["home"] then Option.some .dir
  else if q = ["home", "src"] then Option.some (.file "S")
  else if q = ["home", "tgt"] then Option.some (.file "T")
  else Option.none

/-- Like `sampleFS`, but the target is a dangling symlink. -/
def danglingFS : FS := fun q =>
  if q = ["home"] then Option.some .dir
  else if q = ["home", "src"] then Option.some (.file "S")
  else if q = ["home", "tgt"] then Option.some (.link ["home", "gone"])
  else Option.none

/-- Like `sampleFS`, but the target is a real directory with a file
inside. -/
def dirTargetFS : FS := fun q =>
  if q = ["home"] then Option.some .dir
  else if q = ["home", "src"] then Option.some (.file "S")
  else if q = ["home", "tgt"] then Option.some .dir
  else if q = ["home", "tgt", "inner"] then Option.some (.file "I")
  else Option.none

/-! ## Supporting lemmas: dictionaries and the merge -/

theorem PyDict.get_set_self : ∀ (d : PyDict) (k : String) (v : PyValue),
    (d.set k v).get k = Option.some v
  | .nil, k, v => by simp [PyDict.set, PyDict.get]
  | .cons k' v' rest, k, v => by
      by_cases h : k' = k
      · simp [PyDict.set, h, PyDict.get]
      · simp [PyDict.set, h, PyDict.get, PyDict.get_set_self rest k v]

theorem PyDict.get_set_ne : ∀ (d : PyDict) (k k' : String) (v : PyValue), k' ≠ k →
    (d.set k v).get k' = d.get k'
  | .nil, k, k', v, h => by
      simp [PyDict.set, PyDict.get]
      intro h'
      exact absurd h'.symm h
  | .cons k₀ v₀ rest, k, k', v, h => by
      by_cases h₀ : k₀ = k
      · subst h₀
        simp [PyDict.set, PyDict.get, if_neg (fun h' : k₀ = k' => h h'.symm)]
      · simp only [PyDict.set, if_neg h₀, PyDict.get]
        by_cases h₁ : k₀ = k'
        · simp [h₁]
        · simp [h₁, PyDict.get_set_ne rest k k' v h]

theorem mergeDict_cons (b : PyDict) (k : String) (v : PyValue) (rest : PyDict) :
    mergeDict b (.cons k v rest) =
      mergeDict
        (match b.get k, v with
         | Option.some (.dict bd), .dict ud => b.set k (.dict (mergeDict bd ud))
         | _, _ => b.set k v) rest := by
  rw [mergeDict.eq_def]

theorem mergeDict_nil (b : PyDict) : mergeDict b .nil = b := by
  rw [mergeDict.eq_def]

theorem mergeDict_get_notMem : ∀ (u b : PyDict) (k : String), k ∉ u.keys →
    (mergeDict b u).get k = b.get k
  | .nil, b, k, _ => by rw [mergeDict_nil]
  | .cons k₀ v₀ rest, b, k, h => by
      simp [PyDict.keys] at h
      obtain ⟨hk₀, hrest⟩ := h
      have hne : k ≠ k₀ := hk₀
      rw [mergeDict_cons]
      rcases hbv : b.get k₀ with _ | bv
      · cases v₀ <;>
          rw [mergeDict_get_notMem rest _ k hrest] <;>
          exact PyDict.get_set_ne b k₀ k _ hne
      · cases bv <;> cases v₀ <;>
          rw [mergeDict_get_notMem rest _ k hrest] <;>
          exact PyDict.get_set_ne b k₀ k _ hne

theorem mergeDict_get : ∀ (u b : PyDict) (k : String), u.keys.Nodup →
    (mergeDict b u).get k = mergeAt (b.get k) (u.get k)
  | .nil, b, k, _ => by
      rw [mergeDict_nil]
      cases hbv : b.get k <;> simp [PyDict.get, mergeAt]
  | .cons k₀ v₀ rest, b, k, h => by
      simp [PyDict.keys, List.nodup_cons] at h
      obtain ⟨hk₀, hrest⟩ := h
      rw [mergeDict_cons]
      by_cases hk : k₀ = k
      · subst hk
        have hget : (PyDict.cons k₀ v₀ rest).get k₀ = Option.some v₀ := by
          simp [PyDict.get]
        rw [hget]
        rcases hbv : b.get k₀ with _ | bv
        · cases v₀ <;>
            rw [mergeDict_get_notMem rest _ k₀ hk₀] <;>
            simp [PyDict.get_set_self, mergeAt]
        · cases bv <;> cases v₀ <;>
            rw [mergeDict_get_notMem rest _ k₀ hk₀] <;>
            simp [PyDict.get_set_self, mergeAt]
      · have hget : (PyDict.cons k₀ v₀ rest).get k = rest.get k := by
          simp [PyDict.get, hk]
        rw [hget]
        have hne : k ≠ k₀ := fun h' => hk h'.symm
        rcases hbv : b.get k₀ with _ | bv
        · cases v₀ <;>
            rw [mergeDict_get rest _ k hrest, PyDict.get_set_ne b k₀ k _ hne]
        · cases bv <;> cases v₀ <;>
            rw [mergeDict_get rest _ k hrest, PyDict.get_set_ne b k₀ k _ hne]

/-! ## Supporting lemmas: the `Config.get` walk over merged trees -/

theorem wfVal_dict_nodup {d : PyDict} (h : wfVal (.dict d) = true) : d.keys.Nodup := by
  rw [wfVal.eq_def] at h
  simp at h
  exact h.1

theorem wfVal_dict_entries {d : PyDict} (h : wfVal (.dict d) = true) : wfDict d = true := by
  rw [wfVal.eq_def] at h
  simp at h
  exact h.2

theorem wfDict_get : ∀ (d : PyDict) (k : String) (v : PyValue), wfDict d = true →
    d.get k = Option.some v → wfVal v = true
  | .nil, k, v, _, hg => by simp [PyDict.get] at hg
  | .cons k₀ v₀ rest, k, v, hw, hg => by
      rw [wfDict.eq_def] at hw
      simp at hw
      simp only [PyDict.get] at hg
      by_cases hk : k₀ = k
      · rw [if_pos hk] at hg
        cases hg
        exact hw.1
      · rw [if_neg hk] at hg
        exact wfDict_get rest k v hw.2 hg

theorem cleanMiss_none : ∀ (segs : List String), cleanMiss segs PyValue.none = false
  | [] => rfl
  | _ :: _ => rfl

theorem cleanMiss_getAux : ∀ (segs : List String) (v : PyValue) (dflt : PyValue),
    cleanMiss segs v = true → Config.getAux dflt segs v = dflt
  | [], v, dflt, h => by simp [cleanMiss] at h
  | k :: ks, v, dflt, h => by
      cases v with
      | dict dd =>
          simp only [cleanMiss] at h
          simp only [Config.getAux]
          rcases hg : dd.get k with _ | v'
          · rfl
          · rw [hg] at h
            cases v' with
            | none =>
                simp only [cleanMiss_none] at h
                simp at h
            | str s => simp [cleanMiss] at h
            | pathv s => simp [cleanMiss] at h
            | list l => simp [cleanMiss] at h
            | dict d' => exact cleanMiss_getAux ks (.dict d') dflt h
      | none => simp [cleanMiss] at h
      | str s => simp [cleanMiss] at h
      | pathv s => simp [cleanMiss] at h
      | list l => simp [cleanMiss] at h

theorem walkFails_getAux : ∀ (segs : List String) (v : PyValue) (dflt : PyValue),
    walkFails segs v = true → Config.getAux dflt segs v = dflt
  | [], v, dflt, h => by simp [walkFails] at h
  | k :: ks, v, dflt, h => by
      cases v with
      | dict dd =>
          simp only [walkFails] at h
          simp only [Config.getAux]
          rcases hg : dd.get k with _ | v'
          · rfl
          · rw [hg] at h
            cases v' with
            | none => rfl
            | str s =>
                cases ks with
                | nil => simp [walkFails] at h
                | cons a b => rfl
            | pathv s =>
                cases ks with
                | nil => simp [walkFails] at h
                | cons a b => rfl
            | list l =>
                cases ks with
                | nil => simp [walkFails] at h
                | cons a b => rfl
            | dict d' => exact walkFails_getAux ks (.dict d') dflt h
      | none => rfl
      | str s => rfl
      | pathv s => rfl
      | list l => rfl

theorem mergeAt_none : ∀ (b : Option PyValue), mergeAt b Option.none = b
  | Option.none => rfl
  | Option.some v => by cases v <;> rfl

theorem merge_cleanMiss_getAux : ∀ (segs : List String) (bd ud : PyDict) (dflt : PyValue),
    wfVal (.dict ud) = true → cleanMiss segs (.dict ud) = true →
    Config.getAux dflt segs (.dict (mergeDict bd ud)) = Config.getAux dflt segs (.dict bd)
  | [], bd, ud, dflt, _, hcm => by simp [cleanMiss] at hcm
  | k :: ks, bd, ud, dflt, hwf, hcm => by
      have hmg : (mergeDict bd ud).get k = mergeAt (bd.get k) (ud.get k) :=
        mergeDict_get ud bd k (wfVal_dict_nodup hwf)
      simp only [cleanMiss] at hcm
      simp only [Config.getAux]
      rcases hg : ud.get k with _ | uv
      · rw [hg, mergeAt_none] at hmg
        rw [hmg]
      · rw [hg] at hmg
        rw [hg] at hcm
        simp only [] at hcm
        cases uv with
        | none =>
            simp only [cleanMiss_none] at hcm
            simp at hcm
        | str s => cases ks <;> simp [cleanMiss] at hcm
        | pathv s => cases ks <;> simp [cleanMiss] at hcm
        | list l => cases ks <;> simp [cleanMiss] at hcm
        | dict ud' =>
            have hwf' : wfVal (.dict ud') = true :=
              wfDict_get ud k (.dict ud') (wfVal_dict_entries hwf) hg
            rcases hb : bd.get k with _ | bv
            · rw [hb] at hmg
              simp only [mergeAt] at hmg
              rw [hmg]
              exact cleanMiss_getAux ks (.dict ud') dflt hcm
            · rw [hb] at hmg
              cases bv with
              | dict bd' =>
                  simp only [mergeAt] at hmg
                  rw [hmg]
                  exact merge_cleanMiss_getAux ks bd' ud' dflt hwf' hcm
              | none =>
                  simp only [mergeAt] at hmg
                  rw [hmg]
                  exact cleanMiss_getAux ks (.dict ud') dflt hcm
              | str s =>
                  simp only [mergeAt] at hmg
                  rw [hmg]
                  cases ks with
                  | nil => simp [cleanMiss] at hcm
                  | cons a b => exact cleanMiss_getAux _ (.dict ud') dflt hcm
              | pathv s =>
                  simp only [mergeAt] at hmg
                  rw [hmg]
                  cases ks with
                  | nil => simp [cleanMiss] at hcm
                  | cons a b => exact cleanMiss_getAux _ (.dict ud') dflt hcm
              | list l =>
                  simp only [mergeAt] at hmg
                  rw [hmg]
                  cases ks with
                  | nil => simp [cleanMiss] at hcm
                  | cons a b => exact cleanMiss_getAux _ (.dict ud') dflt hcm

theorem merge_scalar_getAux : ∀ (segs : List String) (bd ud : PyDict) (dflt v w : PyValue),
    wfVal (.dict ud) = true →
    walkPath segs (.dict bd) = Option.some w →
    walkPath segs (.dict ud) = Option.some v →
    isScalar v = true → isScalar w = true →
    Config.getAux dflt segs (.dict (mergeDict bd ud)) = v
  | [], bd, ud, dflt, v, w, _, _, hwu, hsv, _ => by
      simp [walkPath] at hwu
      rw [← hwu] at hsv
      simp [isScalar] at hsv
  | k :: ks, bd, ud, dflt, v, w, hwf, hwb, hwu, hsv, hsw => by
      simp only [walkPath] at hwb hwu
      rcases hg : ud.get k with _ | uv
      · rw [hg] at hwu
        simp at hwu
      rcases hb : bd.get k with _ | bv
      · rw [hb] at hwb
        simp at hwb
      rw [hg] at hwu
      rw [hb] at hwb
      simp only [] at hwu hwb
      have hmg : (mergeDict bd ud).get k = mergeAt (Option.some bv) (Option.some uv) := by
        rw [mergeDict_get ud bd k (wfVal_dict_nodup hwf), hg, hb]
      simp only [Config.getAux]
      cases ks with
      | nil =>
          simp [walkPath] at hwu hwb
          subst hwu
          subst hwb
          cases uv with
          | str s =>
              have hme : mergeAt (Option.some bv) (Option.some (PyValue.str s)) =
                  Option.some (PyValue.str s) := by cases bv <;> rfl
              rw [hme] at hmg
              rw [hmg]
              rfl
          | pathv s =>
              have hme : mergeAt (Option.some bv) (Option.some (PyValue.pathv s)) =
                  Option.some (PyValue.pathv s) := by cases bv <;> rfl
              rw [hme] at hmg
              rw [hmg]
              rfl
          | none => simp [isScalar] at hsv
          | list l => simp [isScalar] at hsv
          | dict d => simp [isScalar] at hsv
      | cons k' ks' =>
          cases uv with
          | none => simp [walkPath] at hwu
          | str s => simp [walkPath] at hwu
          | pathv s => simp [walkPath] at hwu
          | list l => simp [walkPath] at hwu
          | dict ud' =>
              cases bv with
              | none => simp [walkPath] at hwb
              | str s => simp [walkPath] at hwb
              | pathv s => simp [walkPath] at hwb
              | list l => simp [walkPath] at hwb
              | dict bd' =>
                  simp only [mergeAt] at hmg
                  rw [hmg]
                  exact merge_scalar_getAux (k' :: ks') bd' ud' dflt v w
                    (wfDict_get ud k (.dict ud') (wfVal_dict_entries hwf) hg)
                    hwb hwu hsv hsw

/-! ## Supporting lemmas: the process monad and `run_command` -/

theorem Py.bind_def {α β : Type} (m : Py α) (f : α → Py β) (s : PyState) :
    (m >>= f) s =
      match m s with
      | (s', .ok a) => f a s'
      | (s', .exit c) => (s', .exit c)
      | (s', .raised e) => (s', .raised e) := rfl

theorem Py.pure_def {α : Type} (a : α) (s : PyState) :
    (pure a : Py α) s = (s, .ok a) := rfl

theorem run_command_eval (cmd : List String) (check : Bool) (cwd : Option String)
    (s : PyState) :
    run_command cmd check cwd s =
      match spawn s cmd with
      | (s₁, .notFound) =>
          ({ s₁ with trace := s₁.trace ++ [cmd],
                     log := s₁.log ++ [⟨.error, notFoundMsg cmd⟩] }, .exit 1)
      | (s₁, .finished rc out err) =>
          if check ∧ rc ≠ 0 then
            ({ s₁ with trace := s₁.trace ++ [cmd],
                       log := s₁.log ++ [⟨.error, commandFailedMsg cmd cwd rc out err⟩] },
             .exit 1)
          else
            ({ s₁ with trace := s₁.trace ++ [cmd] }, .ok ⟨cmd, rc, out, err⟩) := by
  show (spawnStep cmd >>= fun r => _) s = _
  rw [Py.bind_def]
  rcases hs : spawn s cmd with ⟨s₁, r⟩
  simp only [spawnStep, hs]
  cases r with
  | notFound => rfl
  | finished rc out err =>
      by_cases h : check ∧ rc ≠ 0
      · simp only [if_pos h]
        rfl
      · simp only [if_neg h]
        rfl

theorem spawn_trace (s : PyState) (argv : List String) : (spawn s argv).1.trace = s.trace := by
  unfold spawn
  repeat' split <;> try rfl

theorem spawn_log (s : PyState) (argv : List String) : (spawn s argv).1.log = s.log := by
  unfold spawn
  repeat' split <;> try rfl

theorem run_command_no_raise (cmd : List String) (check : Bool) (cwd : Option String)
    (s : PyState) (e : PyExc) : (run_command cmd check cwd s).2 ≠ .raised e := by
  rw [run_command_eval]
  rcases spawn s cmd with ⟨s₁, r⟩
  cases r with
  | notFound => simp
  | finished rc out err =>
      by_cases h : check ∧ rc ≠ 0
      · simp [if_pos h]
      · simp [if_neg h]

theorem run_command_trace (cmd : List String) (check : Bool) (cwd : Option String)
    (s : PyState) : (run_command cmd check cwd s).1.trace = s.trace ++ [cmd] := by
  rw [run_command_eval]
  have ht := spawn_trace s cmd
  rcases hs : spawn s cmd with ⟨s₁, r⟩
  rw [hs] at ht
  simp only at ht
  cases r with
  | notFound => simpa using ht
  | finished rc out err =>
      by_cases h : check ∧ rc ≠ 0
      · simp only [if_pos h]
        simpa using ht
      · simp only [if_neg h]
        simpa using ht

/-! ## Supporting lemmas: substring checks and the stash list -/

theorem isPrefixOf_self_append (l t : List Char) : l.isPrefixOf (l ++ t) = true := by
  induction l with
  | nil => simp [List.isPrefixOf]
  | cons a as ih => simpa [List.isPrefixOf] using ih

theorem subListC_self_append (n t : List Char) : subListC n (n ++ t) = true := by
  cases n with
  | nil =>
      cases t with
      | nil => rfl
      | cons c cs => simp [subListC, List.isPrefixOf]
  | cons c cs => simp [subListC, isPrefixOf_self_append]

theorem pyIn_self_append (a t : String) : pyIn a (a ++ t) = true := by
  have h : (a ++ t).data = a.data ++ t.data := String.data_append a t
  rw [pyIn, h]
  exact subListC_self_append a.data t.data

theorem pyIn_joinWith_head (sep a : String) (rest : List String) :
    pyIn a (joinWith sep (a :: rest)) = true := by
  cases rest with
  | nil =>
      have h : joinWith sep [a] = a ++ "" := by simp [joinWith]
      rw [h]
      exact pyIn_self_append a ""
  | cons b bs =>
      have h : joinWith sep (a :: b :: bs) = a ++ (sep ++ joinWith sep (b :: bs)) := by
        simp [joinWith, String.append_assoc]
      rw [h]
      exact pyIn_self_append a (sep ++ joinWith sep (b :: bs))

/-! ## Supporting lemmas: the dead exception handlers -/

theorem safe_git_pull_no_false (rp rn : String) (s : PyState) :
    (safe_git_pull rp rn s).2 = .ok true ∨ (safe_git_pull rp rn s).2 = .exit 1 := by
  obtain ⟨⟨present, isGit, lh, rh, dirty, stash⟩, remoteOk, popClean, tr, lg⟩ := s
  cases present <;> cases isGit <;> cases dirty <;> cases remoteOk <;> cases popClean <;>
    first
    | exact Or.inl rfl
    | exact Or.inr rfl

set_option maxHeartbeats 4000000 in
theorem clone_dotfiles_no_conflicted (s : PyState) :
    (clone_dotfiles s).2 ≠ .ok SyncOutcome.conflicted := by
  obtain ⟨⟨present, isGit, lh, rh, dirty, stash⟩, remoteOk, popClean, tr, lg⟩ := s
  cases present <;> cases isGit <;> cases dirty <;> cases remoteOk <;> cases popClean <;>
    simp [clone_dotfiles, tryExceptCPE, Py.bind_def, Py.pure_def, run_command_eval,
      spawn, Logger.info, Logger.warning, Logger.success, Logger.error, addLog, getPy,
      pyStrip, pyIn_joinWith_head]


/-! ## Supporting lemmas: the filesystem model -/

theorem isPrefixOf_self_append_str (l t : List String) : l.isPrefixOf (l ++ t) = true := by
  induction l with
  | nil => simp [List.isPrefixOf]
  | cons a as ih => simpa [List.isPrefixOf] using ih

theorem backupName_inj {name ts ts' : String}
    (h : backupName name ts' = backupName name ts) : ts' = ts := by
  unfold backupName at h
  have hd := congrArg String.data h
  simp only [String.data_append] at hd
  exact String.ext (List.append_cancel_left hd)

theorem backupPath_prefix_eq {p : FPath} {ts ts' : String}
    (h : (backupPath p ts).isPrefixOf (backupPath p ts') = true) : ts' = ts := by
  have hp : backupPath p ts <+: backupPath p ts' := List.isPrefixOf_iff_prefix.mp h
  have hl : (backupPath p ts).length = (backupPath p ts').length := by
    simp [backupPath]
  have he := List.IsPrefix.eq_of_length hp hl
  have he2 : backupName (p.getLastD "") ts = backupName (p.getLastD "") ts' := by
    simpa [backupPath] using he
  exact backupName_inj he2.symm

theorem resolveFS_node : ∀ (k : Nat) (fs : FS) (p rt : FPath),
    resolveFS k fs p = Option.some rt →
    ∃ m, fs rt = Option.some m ∧ ∀ q, m ≠ .link q
  | 0, fs, p, rt, h => by simp [resolveFS] at h
  | k + 1, fs, p, rt, h => by
      simp only [resolveFS] at h
      rcases hn : fs p with _ | n
      · rw [hn] at h
        simp at h
      · rw [hn] at h
        cases n with
        | link q => exact resolveFS_node k fs q rt h
        | file c =>
            simp at h
            subst h
            exact ⟨.file c, hn, by intro q hq; cases hq⟩
        | dir =>
            simp at h
            subst h
            exact ⟨.dir, hn, by intro q hq; cases hq⟩

theorem resolveFS_nonlink (k : Nat) (fs : FS) (p : FPath) (n : FNode)
    (hn : fs p = Option.some n) (hnl : ∀ q, n ≠ .link q) :
    resolveFS (k + 1) fs p = Option.some p := by
  simp only [resolveFS, hn]
  all_goals
    cases n with
    | link q => exact absurd rfl (hnl q)
    | file c => rfl
    | dir => rfl

theorem resolveSoft_nonlink (k : Nat) (fs : FS) (p : FPath) (n : FNode)
    (hn : fs p = Option.some n) (hnl : ∀ q, n ≠ .link q) :
    resolveSoft (k + 1) fs p = p := by
  simp only [resolveSoft, hn]
  all_goals
    cases n with
    | link q => exact absurd rfl (hnl q)
    | file c => rfl
    | dir => rfl

theorem backup_eval_exists (ts : String) (fs : FS) (p : FPath)
    (h1 : pathExists fs p = true) :
    FileManager.backup ts fs p =
      (if isDirF fs p then
        (fun q => if (backupPath p ts).isPrefixOf q then
            fs (((resolveFS FUEL fs p).getD p) ++ q.drop (backupPath p ts).length)
          else fs q)
       else
        (fun q => if q = backupPath p ts then fs ((resolveFS FUEL fs p).getD p) else fs q),
       backupPath p ts) := by
  rw [FileManager.backup]
  rw [if_pos h1]
  by_cases hd : isDirF fs p
  · rw [if_pos hd, if_pos hd]
  · rw [if_neg hd, if_neg hd]

theorem backup_noExists (ts : String) (fs : FS) (p : FPath)
    (h : pathExists fs p = false) :
    FileManager.backup ts fs p = (fs, p) := by
  rw [FileManager.backup]
  rw [if_neg (by simp [h])]

theorem backupPath_isPrefixOf_self (p : FPath) (ts : String) :
    (backupPath p ts).isPrefixOf (backupPath p ts) = true := by
  have h := isPrefixOf_self_append_str (backupPath p ts) []
  simpa using h

theorem backup_spec (fs : FS) (p : FPath) (ts : String) (rt : FPath) (n : FNode)
    (hres : resolveFS FUEL fs p = Option.some rt)
    (hn : fs rt = Option.some n)
    (hfresh : ∀ ts', fs (backupPath p ts') = Option.none) :
    (FileManager.backup ts fs p).2 = backupPath p ts ∧
    (FileManager.backup ts fs p).1 (backupPath p ts) = fs rt ∧
    (isDirF fs p = true →
      ∀ suf, (FileManager.backup ts fs p).1 (backupPath p ts ++ suf) = fs (rt ++ suf)) ∧
    (∀ q, (backupPath p ts).isPrefixOf q = false → (FileManager.backup ts fs p).1 q = fs q) ∧
    (∀ ts', ((FileManager.backup ts fs p).1 (backupPath p ts')).isSome = true ↔ ts' = ts) := by
  have h1 : pathExists fs p = true := by simp [pathExists, hres]
  have heval := backup_eval_exists ts fs p h1
  have hrp : (resolveFS FUEL fs p).getD p = rt := by rw [hres]; rfl
  by_cases hd : isDirF fs p
  · rw [if_pos hd] at heval
    rw [heval]
    refine ⟨rfl, ?_, ?_, ?_, ?_⟩
    · simp only [backupPath_isPrefixOf_self, if_pos, List.drop_length, hrp]
      simp
    · intro _ suf
      simp only [isPrefixOf_self_append_str, List.drop_left, hrp]
      simp [isPrefixOf_self_append_str]
    · intro q hq
      simp [hq]
    · intro ts'
      by_cases hts : ts' = ts
      · subst hts
        simp only [backupPath_isPrefixOf_self, if_pos, List.drop_length, hrp]
        simp [hn]
      · have hpre : (backupPath p ts).isPrefixOf (backupPath p ts') = false := by
          by_contra hc
          simp at hc
          exact hts (backupPath_prefix_eq (List.isPrefixOf_iff_prefix.mpr hc))
        simp [hpre, hfresh ts', hts]
  · rw [if_neg hd] at heval
    rw [heval]
    refine ⟨rfl, ?_, ?_, ?_, ?_⟩
    · simp [hrp]
    · intro hcon
      exact absurd hcon (by simp [hd])
    · intro q hq
      have hne : q ≠ backupPath p ts := by
        intro he
        subst he
        rw [backupPath_isPrefixOf_self] at hq
        cases hq
      simp [hne]
    · intro ts'
      by_cases hts : ts' = ts
      · subst hts
        simp [hrp, hn]
      · have hne : backupPath p ts' ≠ backupPath p ts := by
          intro he
          have : (backupPath p ts).isPrefixOf (backupPath p ts') = true := by
            rw [he]
            exact backupPath_isPrefixOf_self p ts
          exact hts (backupPath_prefix_eq this)
        simp [hne, hfresh ts', hts]

theorem append_singleton_not_prefixOf (l : FPath) (x : String) :
    (l ++ [x]).isPrefixOf l = false := by
  by_contra hc
  simp only [Bool.not_eq_false] at hc
  have hp : l ++ [x] <+: l := List.isPrefixOf_iff_prefix.mp hc
  have := hp.length_le
  simp at this

theorem backupName_ne (name ts s : String) (h : s.length < name.length + 8) :
    backupName name ts ≠ s := by
  intro he
  have hl : (backupName name ts).length = name.length + 8 + ts.length := by
    simp [backupName, String.length_append]
    decide
  rw [he] at hl
  omega

theorem getLastD_append_singleton (l : List String) (x d : String) :
    (l ++ [x]).getLastD d = x := by
  simp [List.getLastD_eq_getLast?, List.getLast?_concat]

theorem backupPath_not_prefixOf_orig (p : FPath) (ts : String) :
    (backupPath p ts).isPrefixOf p = false := by
  cases p with
  | nil => rfl
  | cons a as =>
      by_contra hc
      simp only [Bool.not_eq_false] at hc
      have hpre : backupPath (a :: as) ts <+: a :: as := List.isPrefixOf_iff_prefix.mp hc
      have hlen : (backupPath (a :: as) ts).length = (a :: as).length := by
        simp [backupPath]
      have he := List.IsPrefix.eq_of_length hpre hlen
      have hlast := congrArg (fun l : FPath => l.getLastD "") he
      simp only [backupPath, getLastD_append_singleton] at hlast
      have hne := backupName_ne ((a :: as).getLastD "") ts ((a :: as).getLastD "")
        (by omega)
      exact hne hlast

theorem backup_keeps_orig (ts : String) (fs : FS) (p : FPath) :
    (FileManager.backup ts fs p).1 p = fs p := by
  by_cases h : pathExists fs p
  · rw [backup_eval_exists ts fs p h]
    by_cases hd : isDirF fs p
    · rw [if_pos hd]
      simp [backupPath_not_prefixOf_orig]
    · rw [if_neg hd]
      have hne : p ≠ backupPath p ts := by
        intro he
        have h1 := backupPath_not_prefixOf_orig p ts
        have h2 := backupPath_isPrefixOf_self p ts
        rw [← he] at h1 h2
        rw [h1] at h2
        cases h2
      simp [hne]
  · rw [backup_noExists ts fs p (by simpa using h)]

theorem symlink_eval (ts : String) (fs : FS) (source target : FPath) (sn tn : FNode)
    (rt : FPath)
    (hsrc : fs source = Option.some sn) (hsnl : ∀ q, sn ≠ .link q)
    (htgt : fs target = Option.some tn) (htnd : tn ≠ .dir)
    (hres : resolveFS FUEL fs target = Option.some rt) :
    FileManager.symlink ts fs source target true =
      (fun q => if q = target then Option.some (.link source)
        else mkdirParents
          (fun q' => if q' = target then Option.none
            else (FileManager.backup ts fs target).1 q') target.dropLast q,
       .ok) := by
  have hsoft : resolveSoft FUEL fs source = source :=
    resolveSoft_nonlink 39 fs source sn hsrc hsnl
  have hpe : pathExists fs source = true := by
    show (resolveFS (39 + 1) fs source).isSome = true
    rw [resolveFS_nonlink 39 fs source sn hsrc hsnl]
    rfl
  have hpt : pathExists fs target = true := by simp [pathExists, hres]
  have hkeep : (FileManager.backup ts fs target).1 target = fs target :=
    backup_keeps_orig ts fs target
  simp only [FileManager.symlink, hsoft, hpe, hpt, if_pos, Bool.true_or, if_true,
    hkeep, htgt]
  cases tn with
  | dir => exact absurd rfl htnd
  | file c => rfl
  | link q => rfl

/-- C8: for every source and target where the source exists (as a
non-link node) and the target pre-exists and resolves to existing
content, `FileManager.symlink` with the backup flag true first backs
up the prior target content, creates the parent directories of the
target as needed, and ends with the target a symlink resolving to the
resolved source, with exactly one backup artifact for the prior
target content (amended from the claim twice over: a dangling-symlink
target, which has no content, yields no backup artifact; and a real
directory target makes `target.unlink()` raise `IsADirectoryError`
after the backup, so the run crashes and the target is never
replaced — see the counterexample for both). -/
theorem C8_symlink_backup_postcondition (fs : FS) (source target : FPath) (ts : String) (sn tn : FNode)
    (rt : FPath)
    (hsrc : fs source = Option.some sn) (hsnl : ∀ q, sn ≠ .link q)
    (htgt : fs target = Option.some tn) (htnd : tn ≠ .dir)
    (hres : resolveFS FUEL fs target = Option.some rt)
    (hst : source ≠ target)
    (hfresh : ∀ ts', fs (backupPath target ts') = Option.none)
    (hnp : ∀ ts', (backupPath target ts').isPrefixOf source = false) :
    (FileManager.symlink ts fs source target true).2 = .ok ∧
    (FileManager.symlink ts fs source target true).1 target = Option.some (.link source) ∧
    resolveFS FUEL (FileManager.symlink ts fs source target true).1 target =
      Option.some source ∧
    resolveFS FUEL (FileManager.symlink ts fs source target true).1 source =
      Option.some source ∧
    (FileManager.symlink ts fs source target true).1 (backupPath target ts) = fs rt ∧
    (∀ ts', ((FileManager.symlink ts fs source target true).1
        (backupPath target ts')).isSome = true ↔ ts' = ts) ∧
    (∀ q, q ≠ [] → q.isPrefixOf target.dropLast = true →
      ((FileManager.symlink ts fs source target true).1 q).isSome = true) := by
  obtain ⟨m, hm, hml⟩ := resolveFS_node FUEL fs target rt hres
  have hbs := backup_spec fs target ts rt m hres hm hfresh
  have heval := symlink_eval ts fs source target sn tn rt hsrc hsnl htgt htnd hres
  have happ : ∀ q, (FileManager.symlink ts fs source target true).1 q =
      if q = target then Option.some (FNode.link source)
      else mkdirParents
        (fun q2 => if q2 = target then Option.none
          else (FileManager.backup ts fs target).1 q2) target.dropLast q := by
    intro q
    rw [heval]
  have hbneq : ∀ ts', backupPath target ts' ≠ target := by
    intro ts' he
    rw [← he] at htgt
    rw [hfresh ts'] at htgt
    cases htgt
  have hbnpp : ∀ ts', (backupPath target ts').isPrefixOf target.dropLast = false := by
    intro ts'
    unfold backupPath
    exact append_singleton_not_prefixOf target.dropLast _
  have htgtapp : (FileManager.symlink ts fs source target true).1 target =
      Option.some (FNode.link source) := by
    rw [happ target, if_pos rfl]
  have hr1src : (FileManager.symlink ts fs source target true).1 source =
      Option.some sn := by
    rw [happ source, if_neg hst]
    have hfsb : (FileManager.backup ts fs target).1 source = fs source :=
      hbs.2.2.2.1 source (hnp ts)
    unfold mkdirParents
    rw [if_neg]
    · simp only [if_neg hst, hfsb, hsrc]
    · intro hcon
      simp only [if_neg hst, hfsb, hsrc] at hcon
      cases hcon.2.2
  have hbpapp : ∀ ts', (FileManager.symlink ts fs source target true).1
      (backupPath target ts') = (FileManager.backup ts fs target).1 (backupPath target ts') := by
    intro ts'
    rw [happ _, if_neg (hbneq ts')]
    unfold mkdirParents
    rw [if_neg]
    · simp only [if_neg (hbneq ts')]
    · intro hcon
      rw [hbnpp ts'] at hcon
      cases hcon.2.1
  refine ⟨by rw [heval], htgtapp, ?_, ?_, ?_, ?_, ?_⟩
  · show resolveFS (39 + 1) _ _ = _
    simp only [resolveFS, htgtapp]
    show resolveFS (38 + 1) _ _ = _
    rw [resolveFS_nonlink 38 _ source sn hr1src hsnl]
  · show resolveFS (39 + 1) _ _ = _
    rw [resolveFS_nonlink 39 _ source sn hr1src hsnl]
  · rw [hbpapp ts]
    exact hbs.2.1
  · intro ts'
    rw [hbpapp ts']
    exact hbs.2.2.2.2 ts'
  · intro q hq0 hqp
    by_cases hqt : q = target
    · rw [hqt, htgtapp]
      rfl
    · rw [happ q, if_neg hqt]
      unfold mkdirParents
      rcases hq1 : (fun q2 => if q2 = target then Option.none
          else (FileManager.backup ts fs target).1 q2) q with _ | v
      · rw [if_pos ⟨hq0, hqp, rfl⟩]
        rfl
      · rw [if_neg]
        · rfl
        · intro hcon
          cases hcon.2.2

/-! ## Supporting lemmas: concrete backup-name facts -/

theorem sampleFS_fresh (ts' : String) :
    sampleFS (backupPath ["home", "tgt"] ts') = Option.none := by
  have h1 := backupName_ne "tgt" ts' "src" (by decide)
  have h2 := backupName_ne "tgt" ts' "tgt" (by decide)
  simp [sampleFS, backupPath, h1, h2]

theorem sampleFS_src_unshadowed (ts' : String) :
    (backupPath ["home", "tgt"] ts').isPrefixOf ["home", "src"] = false := by
  have h1 := backupName_ne "tgt" ts' "src" (by decide)
  simp [backupPath, List.isPrefixOf, h1]

/-! ## The claims -/

/-- C1: the claim says a failing external command (non-zero exit,
`check=true`) makes `run_command` deliver a `CommandError` with argv,
exit code, stdout, stderr and working directory to its caller, with no
automatic retry.  The code builds that diagnostic but hands it to
`Logger().error(...)`, whose default `exit=True` terminates the
process with status 1 before the `raise` can run: the caller receives
`SystemExit`, never the exception.  This theorem evaluates the code at
a failing input (a `git pull` against an unreachable remote): the
result is `exit 1` with the diagnostic only in the log; moreover
`run_command` never lets an exception reach the caller, and each call
spawns its command exactly once (no retry). -/
theorem C1_run_command_failure_exits_no_retry :
    (run_command ["git", "pull"] true (Option.some dotfilesRoot)
        ⟨⟨true, true, 0, 1, false, []⟩, false, true, [], []⟩ =
      (⟨⟨true, true, 0, 1, false, []⟩, false, true, [["git", "pull"]],
        [⟨.error, commandFailedMsg ["git", "pull"] (Option.some dotfilesRoot) 1 ""
          "fatal: unable to access remote"⟩]⟩,
       .exit 1)) ∧
    (∀ (cmd : List String) (check : Bool) (cwd : Option String) (s : PyState) (e : PyExc),
      (run_command cmd check cwd s).2 ≠ PyResult.raised e) ∧
    (∀ (cmd : List String) (check : Bool) (cwd : Option String) (s : PyState),
      (run_command cmd check cwd s).1.trace = s.trace ++ [cmd]) :=
  ⟨by decide, run_command_no_raise, run_command_trace⟩

/-- C2: the claim says an unexpected failure while querying status,
pulling, stashing or rebasing an existing repository is logged as a
warning and the run continues with the local copy.  In the code the
failing `git pull` makes `run_command` call `Logger().error(...)`
(default `exit=True`), which terminates the process with status 1; the
`except` handler and its `"Continuing with existing dotfiles..."`
message are unreachable.  Evaluated at an existing clean repository
with an unreachable remote: the run exits 1, the failure is logged at
error (not warning) severity, and no continuation message appears. -/
theorem C2_sync_failure_exits_instead_of_warning :
    (clone_dotfiles ⟨⟨true, true, 0, 1, false, []⟩, false, true, [], []⟩).2 =
      PyResult.exit 1 ∧
    (clone_dotfiles ⟨⟨true, true, 0, 1, false, []⟩, false, true, [], []⟩).1.log =
      [⟨.info, "Checking dotfiles repository status"⟩,
       ⟨.info, "Updating dotfiles repository"⟩,
       ⟨.error, commandFailedMsg ["git", "pull"] (Option.some dotfilesRoot) 1 ""
         "fatal: unable to access remote"⟩] ∧
    "Continuing with existing dotfiles..." ∉
      ((clone_dotfiles ⟨⟨true, true, 0, 1, false, []⟩, false, true, [], []⟩).1.log.map
        LogMsg.text) := by
  refine ⟨by decide, by decide, by decide⟩

/-- C3: the dirty-tree sync stashes under the label
`Auto-stash before pull`, pulls with rebase and reapplies the stash;
the claim says a conflicting reapply is reported as a warning and is
non-fatal.  In the code the failing `git stash pop` makes
`run_command` exit the process with status 1 before the conflict
handler can run: evaluated at a dirty repository whose stash reapply
conflicts, the run exits 1, the conflict warning is never logged, and
the stash entry is left behind.  The no-conflict half of the claim
holds: evaluated with a clean reapply, the run ends `divergedResolved`
with the remote commit pulled, the local modification reapplied, and
zero stash entries remaining. -/
theorem C3_stash_conflict_exits_but_clean_reapply_works :
    (clone_dotfiles ⟨⟨true, true, 0, 1, true, []⟩, true, false, [], []⟩).2 =
      PyResult.exit 1 ∧
    "Conflicts detected when applying stash. Please resolve manually." ∉
      ((clone_dotfiles ⟨⟨true, true, 0, 1, true, []⟩, true, false, [], []⟩).1.log.map
        LogMsg.text) ∧
    (clone_dotfiles ⟨⟨true, true, 0, 1, true, []⟩, true, false, [], []⟩).1.repo.stash =
      [autoStashMsg] ∧
    (clone_dotfiles ⟨⟨true, true, 0, 1, true, []⟩, true, true, [], []⟩).2 =
      PyResult.ok SyncOutcome.divergedResolved ∧
    (clone_dotfiles ⟨⟨true, true, 0, 1, true, []⟩, true, true, [], []⟩).1.repo.localHead = 1 ∧
    (clone_dotfiles ⟨⟨true, true, 0, 1, true, []⟩, true, true, [], []⟩).1.repo.dirty = true ∧
    (clone_dotfiles ⟨⟨true, true, 0, 1, true, []⟩, true, true, [], []⟩).1.repo.stash = [] := by
  refine ⟨by decide, by decide, by decide, by decide, by decide, by decide, by decide⟩

/-- C4 counterexample: the claim quantifies over every repository
path, but when the path does not yet exist the first of two
back-to-back calls performs a fresh clone, so its outcome is `cloned`,
not `synced`. -/
theorem C4_absent_repo_first_run_clones_not_syncs :
    (clone_dotfiles ⟨⟨false, false, 0, 1, false, []⟩, true, true, [], []⟩).2 =
      PyResult.ok SyncOutcome.cloned ∧
    PyResult.ok SyncOutcome.cloned ≠ (PyResult.ok SyncOutcome.synced : PyResult SyncOutcome) := by
  refine ⟨by decide, by decide⟩

/-- C4 (amended): for every repository path that already exists as a
clean git repository with a reachable remote, calling `syncOrClone`
twice in a row with no intervening local edits yields the `synced`
outcome both times, leaves the local HEAD unchanged between the two
calls, creates no duplicate stash entries, and runs no `git clone`
(the combined trace is exactly rev-parse, status, pull — twice). -/
theorem C4_sync_idempotent_on_clean_existing_repo (s₀ : PyState)
    (hp : s₀.repo.present = true) (hg : s₀.repo.isGit = true)
    (hd : s₀.repo.dirty = false) (hr : s₀.remoteOk = true) :
    (clone_dotfiles s₀).2 = PyResult.ok SyncOutcome.synced ∧
    (clone_dotfiles (clone_dotfiles s₀).1).2 = PyResult.ok SyncOutcome.synced ∧
    (clone_dotfiles (clone_dotfiles s₀).1).1.repo.localHead =
      (clone_dotfiles s₀).1.repo.localHead ∧
    (clone_dotfiles s₀).1.repo.stash = s₀.repo.stash ∧
    (clone_dotfiles (clone_dotfiles s₀).1).1.repo.stash = s₀.repo.stash ∧
    (clone_dotfiles (clone_dotfiles s₀).1).1.trace = s₀.trace ++
      [["git", "rev-parse", "--git-dir"], ["git", "status", "--porcelain"], ["git", "pull"],
       ["git", "rev-parse", "--git-dir"], ["git", "status", "--porcelain"], ["git", "pull"]] := by
  obtain ⟨⟨present, isGit, lh, rh, dirty, stash⟩, remoteOk, pc, tr, lg⟩ := s₀
  cases present
  · exact absurd hp (by simp)
  · cases isGit
    · exact absurd hg (by simp)
    · cases dirty
      · cases remoteOk
        · exact absurd hr (by simp)
        · refine ⟨rfl, rfl, rfl, rfl, rfl, ?_⟩
          show ((((((tr ++ [["git", "rev-parse", "--git-dir"]]) ++
              [["git", "status", "--porcelain"]]) ++ [["git", "pull"]]) ++
              [["git", "rev-parse", "--git-dir"]]) ++ [["git", "status", "--porcelain"]]) ++
              [["git", "pull"]]) = _
          simp
      · exact absurd hd (by simp)

/-- C4 witness: the amended idempotence theorem applied to a concrete
clean repository. -/
theorem C4_sync_idempotent_witness :
    (clone_dotfiles ⟨⟨true, true, 0, 1, false, []⟩, true, true, [], []⟩).2 =
      PyResult.ok SyncOutcome.synced ∧
    (clone_dotfiles (clone_dotfiles ⟨⟨true, true, 0, 1, false, []⟩, true, true, [], []⟩).1).2 =
      PyResult.ok SyncOutcome.synced ∧
    (clone_dotfiles (clone_dotfiles ⟨⟨true, true, 0, 1, false, []⟩, true, true, [],
        []⟩).1).1.repo.localHead =
      (clone_dotfiles ⟨⟨true, true, 0, 1, false, []⟩, true, true, [], []⟩).1.repo.localHead ∧
    (clone_dotfiles ⟨⟨true, true, 0, 1, false, []⟩, true, true, [], []⟩).1.repo.stash = [] ∧
    (clone_dotfiles (clone_dotfiles ⟨⟨true, true, 0, 1, false, []⟩, true, true, [],
        []⟩).1).1.repo.stash = [] ∧
    (clone_dotfiles (clone_dotfiles ⟨⟨true, true, 0, 1, false, []⟩, true, true, [],
        []⟩).1).1.trace = [] ++
      [["git", "rev-parse", "--git-dir"], ["git", "status", "--porcelain"], ["git", "pull"],
       ["git", "rev-parse", "--git-dir"], ["git", "status", "--porcelain"], ["git", "pull"]] :=
  C4_sync_idempotent_on_clean_existing_repo
    ⟨⟨true, true, 0, 1, false, []⟩, true, true, [], []⟩ rfl rfl rfl rfl

/-- C5: the merge is a recursive key-wise union — for each key, if
both sides hold a nested mapping the merge recurses, otherwise the
override value replaces the default wholesale (`mergeAt` is exactly
that case split); in particular overriding `tools` with
`["ripgrep"]` over the ten-item default list makes `get "tools"`
return exactly `["ripgrep"]`. -/
theorem C5_merge_recursive_union :
    (∀ (base update : PyDict) (k : String), update.keys.Nodup →
      (mergeDict base update).get k = mergeAt (base.get k) (update.get k)) ∧
    Config.get (.dict (mergeDict DEFAULT_CONFIG
        (.ofList [("tools", .list (.ofList [.str "ripgrep"]))]))) "tools" .none =
      .list (.ofList [.str "ripgrep"]) :=
  ⟨fun base update k h => mergeDict_get update base k h, by decide⟩

/-- C5 witness: the merge characterization applied to the default
configuration and the `tools` override. -/
theorem C5_merge_witness :
    (mergeDict DEFAULT_CONFIG (.ofList [("tools", .list (.ofList [.str "ripgrep"]))])).get
        "tools" =
      mergeAt (DEFAULT_CONFIG.get "tools")
        ((PyDict.ofList [("tools", .list (.ofList [.str "ripgrep"]))]).get "tools") :=
  C5_merge_recursive_union.1 DEFAULT_CONFIG
    (.ofList [("tools", .list (.ofList [.str "ripgrep"]))]) "tools" (by decide)

/-- C6 counterexample: the dotted key `a.b` is present only in the
defaults (the override walk fails), yet `get` on the merged tree
returns the fallback, not the default value: the override holds a
non-mapping at the prefix `a`, which replaces the whole default
subtree. -/
theorem C6_shadowed_default_returns_fallback :
    walkPath ["a", "b"] (.dict (.ofList [("a", .dict (.ofList [("b", .str "one")]))])) =
      Option.some (.str "one") ∧
    walkPath ["a", "b"] (.dict (.ofList [("a", .str "shadow")])) = Option.none ∧
    splitDot "a.b" = ["a", "b"] ∧
    Config.get (.dict (mergeDict (.ofList [("a", .dict (.ofList [("b", .str "one")]))])
        (.ofList [("a", .str "shadow")]))) "a.b" (.str "FALLBACK") = .str "FALLBACK" ∧
    PyValue.str "FALLBACK" ≠ PyValue.str "one" := by
  refine ⟨by decide, by decide, by decide, by decide, by decide⟩

/-- C6 (amended): `get` splits the key on dots and walks one segment
at a time, returning the fallback whenever an intermediate segment is
missing or the value met is not a mapping; whenever the override walk
misses cleanly (along the path the override either lacks the segment
from a mapping or recurses through mappings — i.e. the key is not
shadowed by a non-mapping override value at a proper prefix), `get`
on the merged tree agrees with `get` on the defaults; and for keys
present in both trees with scalar values the override value wins. -/
theorem C6_get_walk_and_merge_lookup :
    (∀ (c : PyValue) (key : String) (dflt : PyValue),
      walkFails (splitDot key) c = true → Config.get c key dflt = dflt) ∧
    (∀ (bd ud : PyDict) (key : String) (dflt : PyValue),
      wfVal (.dict ud) = true → cleanMiss (splitDot key) (.dict ud) = true →
      Config.get (.dict (mergeDict bd ud)) key dflt = Config.get (.dict bd) key dflt) ∧
    (∀ (bd ud : PyDict) (key : String) (dflt v w : PyValue),
      wfVal (.dict ud) = true →
      walkPath (splitDot key) (.dict bd) = Option.some w →
      walkPath (splitDot key) (.dict ud) = Option.some v →
      isScalar v = true → isScalar w = true →
      Config.get (.dict (mergeDict bd ud)) key dflt = v) :=
  ⟨fun c key dflt h => walkFails_getAux (splitDot key) c dflt h,
   fun bd ud key dflt hwf hcm => merge_cleanMiss_getAux (splitDot key) bd ud dflt hwf hcm,
   fun bd ud key dflt v w hwf hwb hwu hsv hsw =>
     merge_scalar_getAux (splitDot key) bd ud dflt v w hwf hwb hwu hsv hsw⟩

/-- C6 witness: the three walk properties applied to the default
configuration with concrete keys. -/
theorem C6_get_walk_witness :
    Config.get (.dict DEFAULT_CONFIG) "shell.missing" (.str "FB") = .str "FB" ∧
    Config.get (.dict (mergeDict DEFAULT_CONFIG
        (.ofList [("shell", .dict (.ofList [("theme", .str "plain")]))])))
      "shell.default" (.str "FB") =
      Config.get (.dict DEFAULT_CONFIG) "shell.default" (.str "FB") ∧
    Config.get (.dict (mergeDict DEFAULT_CONFIG
        (.ofList [("shell", .dict (.ofList [("default", .str "bash")]))])))
      "shell.default" (.str "FB") = .str "bash" :=
  ⟨C6_get_walk_and_merge_lookup.1 (.dict DEFAULT_CONFIG) "shell.missing" (.str "FB")
     (by decide),
   C6_get_walk_and_merge_lookup.2.1 DEFAULT_CONFIG
     (.ofList [("shell", .dict (.ofList [("theme", .str "plain")]))]) "shell.default"
     (.str "FB") (by decide) (by decide),
   C6_get_walk_and_merge_lookup.2.2 DEFAULT_CONFIG
     (.ofList [("shell", .dict (.ofList [("default", .str "bash")]))]) "shell.default"
     (.str "FB") (.str "bash") (.str "zsh") (by decide) (by decide) (by decide)
     (by decide) (by decide)⟩

/-- C7: the claim says the built-in defaults are immutable under
construction with an override.  `Config.__init__` copies
`DEFAULT_CONFIG` with `.copy()` — a shallow copy sharing the nested
dict objects — and `_merge_config` then mutates the shared nested
`shell` dict in place.  Evaluated at the override
`{"shell": {"default": "bash"}}`: the class-level constant now maps
`shell.default` to `bash` (heap object 1), and a second `Config()`
built afterwards with no override observes `bash`, not the original
`zsh` (which a pristine heap returns). -/
theorem C7_shallow_copy_mutates_defaults :
    hobjGet (heapObj (configInit defaultHeap
        (Option.some (.cons "shell" (.dict (.cons "default" (.prim "bash") .nil)) .nil))).1 1)
      "default" = Option.some (.prim "bash") ∧
    heapConfigGet (configInit (configInit defaultHeap
        (Option.some (.cons "shell" (.dict (.cons "default" (.prim "bash") .nil)) .nil))).1
        Option.none).1
      (configInit (configInit defaultHeap
        (Option.some (.cons "shell" (.dict (.cons "default" (.prim "bash") .nil)) .nil))).1
        Option.none).2
      "shell.default" = Option.some (.prim "bash") ∧
    heapConfigGet (configInit defaultHeap Option.none).1
      (configInit defaultHeap Option.none).2 "shell.default" = Option.some (.prim "zsh") ∧
    Option.some (HVal.prim "bash") ≠ Option.some (HVal.prim "zsh") := by
  refine ⟨by decide, by decide, by decide, by decide⟩

/-- C8 counterexample, two concrete targets the claim covers but the
code does not handle as claimed.  Dangling symlink target: `backup`
is invoked but is a no-op because the dangling link does not `exist`,
so afterwards the target is the new symlink and no backup artifact
exists — against the claim's "exactly one backup artifact".  Real
directory target: the backup is taken, but `target.unlink()` raises
`IsADirectoryError`, so the run crashes and the target is still the
old directory — against the claim's symlink postcondition. -/
theorem C8_dangling_or_directory_target_breaks_claim :
    pathExists danglingFS ["home", "src"] = true ∧
    isSymlinkF danglingFS ["home", "tgt"] = true ∧
    FileManager.backup "20240101_000000" danglingFS ["home", "tgt"] =
      (danglingFS, ["home", "tgt"]) ∧
    (FileManager.symlink "20240101_000000" danglingFS ["home", "src"] ["home", "tgt"]
        true).1 ["home", backupName "tgt" "20240101_000000"] = Option.none ∧
    (FileManager.symlink "20240101_000000" danglingFS ["home", "src"] ["home", "tgt"]
        true).1 ["home", "tgt"] = Option.some (.link ["home", "src"]) ∧
    pathExists dirTargetFS ["home", "src"] = true ∧
    dirTargetFS ["home", "tgt"] = Option.some .dir ∧
    (FileManager.symlink "20240101_000000" dirTargetFS ["home", "src"] ["home", "tgt"]
        true).2 = .isADirectoryError ∧
    (FileManager.symlink "20240101_000000" dirTargetFS ["home", "src"] ["home", "tgt"]
        true).1 ["home", "tgt"] = Option.some .dir ∧
    (FileManager.symlink "20240101_000000" dirTargetFS ["home", "src"] ["home", "tgt"]
        true).1 ["home", backupName "tgt" "20240101_000000"] = Option.some .dir := by
  refine ⟨by decide, by decide, rfl, by decide, by decide, by decide, by decide,
    by decide, by decide, by decide⟩

/-- C8 witness: the symlink postcondition applied to a concrete
filesystem with a regular file at the target. -/
theorem C8_symlink_witness :
    (FileManager.symlink "20240101_000000" sampleFS ["home", "src"] ["home", "tgt"]
        true).2 = .ok ∧
    (FileManager.symlink "20240101_000000" sampleFS ["home", "src"] ["home", "tgt"]
        true).1 ["home", "tgt"] = Option.some (.link ["home", "src"]) ∧
    resolveFS FUEL (FileManager.symlink "20240101_000000" sampleFS ["home", "src"]
        ["home", "tgt"] true).1 ["home", "tgt"] = Option.some ["home", "src"] ∧
    resolveFS FUEL (FileManager.symlink "20240101_000000" sampleFS ["home", "src"]
        ["home", "tgt"] true).1 ["home", "src"] = Option.some ["home", "src"] ∧
    (FileManager.symlink "20240101_000000" sampleFS ["home", "src"] ["home", "tgt"]
        true).1 (backupPath ["home", "tgt"] "20240101_000000") = sampleFS ["home", "tgt"] ∧
    (∀ ts', ((FileManager.symlink "20240101_000000" sampleFS ["home", "src"]
        ["home", "tgt"] true).1 (backupPath ["home", "tgt"] ts')).isSome = true ↔
        ts' = "20240101_000000") ∧
    (∀ q, q ≠ [] → q.isPrefixOf (["home", "tgt"] : FPath).dropLast = true →
      ((FileManager.symlink "20240101_000000" sampleFS ["home", "src"] ["home", "tgt"]
        true).1 q).isSome = true) :=
  C8_symlink_backup_postcondition sampleFS ["home", "src"] ["home", "tgt"] "20240101_000000"
    (.file "S") (.file "T") ["home", "tgt"]
    (by decide) (fun q h => FNode.noConfusion h) (by decide) (by decide) (by decide)
    (by decide) sampleFS_fresh sampleFS_src_unshadowed

/-- C9: `backup` on a path that does not exist returns that path and
changes nothing; on a path resolving to existing content it returns
the sibling path `<name>.backup.<timestamp>`, the backup holds the
original content at call time (the full subtree when the path is a
directory), every path not under the backup is untouched, and —
given no prior backup artifact for the path — exactly one backup
artifact exists afterwards (the one for this call's timestamp). -/
theorem C9_backup_contract (fs : FS) (p : FPath) (ts : String) :
    (pathExists fs p = false → FileManager.backup ts fs p = (fs, p)) ∧
    (∀ rt n, resolveFS FUEL fs p = Option.some rt → fs rt = Option.some n →
      (∀ ts', fs (backupPath p ts') = Option.none) →
      (FileManager.backup ts fs p).2 = backupPath p ts ∧
      (FileManager.backup ts fs p).1 (backupPath p ts) = fs rt ∧
      (isDirF fs p = true →
        ∀ suf, (FileManager.backup ts fs p).1 (backupPath p ts ++ suf) = fs (rt ++ suf)) ∧
      (∀ q, (backupPath p ts).isPrefixOf q = false →
        (FileManager.backup ts fs p).1 q = fs q) ∧
      (∀ ts', ((FileManager.backup ts fs p).1 (backupPath p ts')).isSome = true ↔
        ts' = ts)) :=
  ⟨backup_noExists ts fs p, fun rt n h1 h2 h3 => backup_spec fs p ts rt n h1 h2 h3⟩

/-- C9 witness: the backup contract applied to a concrete filesystem,
for a missing path and for an existing file. -/
theorem C9_backup_witness :
    FileManager.backup "20240101_000000" sampleFS ["home", "nope"] =
      (sampleFS, ["home", "nope"]) ∧
    (FileManager.backup "20240101_000000" sampleFS ["home", "tgt"]).2 =
      backupPath ["home", "tgt"] "20240101_000000" ∧
    (FileManager.backup "20240101_000000" sampleFS ["home", "tgt"]).1
      (backupPath ["home", "tgt"] "20240101_000000") = sampleFS ["home", "tgt"] :=
  ⟨(C9_backup_contract sampleFS ["home", "nope"] "20240101_000000").1 (by decide),
   ((C9_backup_contract sampleFS ["home", "tgt"] "20240101_000000").2 ["home", "tgt"]
      (.file "T") (by decide) (by decide) sampleFS_fresh).1,
   ((C9_backup_contract sampleFS ["home", "tgt"] "20240101_000000").2 ["home", "tgt"]
      (.file "T") (by decide) (by decide) sampleFS_fresh).2.1⟩

/-- C10: every `Logger.error` call with the default `exit=True` ends
in `sys.exit(1)`; consequently `run_command` never lets
`CalledProcessError` or `FileNotFoundError` reach a caller, so the
`except subprocess.CalledProcessError` handlers written after
`run_command` failures are unreachable: `safe_git_pull` can never
return `False` (it returns `True` or the process exits 1), and
`clone_dotfiles` can never reach its stash-pop conflict branch. -/
theorem C10_logger_error_exits_making_handlers_unreachable :
    (∀ (m : String) (s : PyState), (Logger.error m true s).2 = PyResult.exit 1) ∧
    (∀ (cmd : List String) (check : Bool) (cwd : Option String) (s : PyState) (e : PyExc),
      (run_command cmd check cwd s).2 ≠ PyResult.raised e) ∧
    (∀ (rp rn : String) (s : PyState),
      (safe_git_pull rp rn s).2 = PyResult.ok true ∨
      (safe_git_pull rp rn s).2 = PyResult.exit 1) ∧
    (∀ (s : PyState), (clone_dotfiles s).2 ≠ PyResult.ok SyncOutcome.conflicted) :=
  ⟨fun _ _ => rfl, run_command_no_raise, safe_git_pull_no_false, clone_dotfiles_no_conflicted⟩

end Dotfiles
